import Mathlib

/-!
Verification development for the devicemapper userspace control-plane client.

The Rust sources under verification are `src/core/dm.rs` (ioctl transport,
buffer-growth and busy-retry loops, binary record codec), `src/core/dm_udev_sync.rs`
(udev rendezvous), `src/core/dm_options.rs` (options value type) and `src/lib.rs`
(an earlier revision that carries the `Device` major/minor value type and its
`u64` conversions).

Shallow embedding conventions:
  - machine integers are `Nat` with explicit `% 2^w` where wrap-around matters;
  - byte buffers are `List Nat` (each byte `< 256` in well-formed buffers);
  - Rust `String` values are their UTF-8 byte lists;
  - fallible operations return `Option` / a result inductive;
  - memory accesses that Rust would perform without a bounds check (raw pointer
    reads of a fixed-size struct from a slice, and panicking slice indexing)
    are modelled by an explicit `.oob` outcome so the absence or presence of
    out-of-bounds behaviour is visible in the model;
  - native byte order is little-endian (the targets named in the sources).

Struct layouts follow the kernel dm-ioctl ABI that the sources transmute to:
`dm_target_spec` is 40 bytes (sector_start u64 at 0, length u64 at 8, status
i32 at 16, next u32 at 20, target_type char[16] at 24); `dm_name_list` is a
u64 dev at 0, u32 next at 8, and the NUL-terminated name at offset 12 with
total struct size 16; `dm_ioctl` is 312 bytes (`DM_IOCTL_STRUCT_LEN` in
src/lib.rs), with a 128-byte name field and 129-byte uuid field.
-/

/-! Constants from the sources -/

/-- Start with a large buffer to make BUFFER_FULL rare (src/core/dm.rs). -/
def MIN_BUF_SIZE : Nat := 16 * 1024

/-- Ioctl retry limit (src/core/dm.rs). -/
def IOCTL_RETRIES : Nat := 24

/-- Largest value representable in the u32 `data_size` header field. -/
def u32Max : Nat := 4294967295

/-- Byte size of `Struct_dm_ioctl`; `DM_IOCTL_STRUCT_LEN` in src/lib.rs. -/
def hdrSize : Nat := 312

/-- Byte size of `Struct_dm_target_spec` in the kernel ABI. -/
def targetSpecSize : Nat := 40

def DM_SUSPEND_FLAG : Nat := 2
def DM_BUFFER_FULL_FLAG : Nat := 256
def DM_UEVENT_GENERATED_FLAG : Nat := 8192
def DM_DEV_REMOVE_CMD : Nat := 4
def DM_DEV_RENAME_CMD : Nat := 5
def DM_DEV_SUSPEND_CMD : Nat := 6
def DM_UDEV_PRIMARY_SOURCE_FLAG : Nat := 64
def EBUSY : Nat := 16

/-! Byte-level helpers -/

/-- Modelled from the spec: `align_to` lives in util.rs, which is not under src.
The spec fixes its meaning (params are padded to the 8-byte alignment boundary;
decoded record offsets are 8-byte aligned): round `x` up to a multiple of `a`. -/
def align_to (x a : Nat) : Nat := ((x + a - 1) / a) * a

/-- Little-endian serialization of `v` into `w` bytes (truncating to `2^(8*w)`). -/
def leBytes : Nat → Nat → List Nat
  | 0, _ => []
  | w + 1, v => v % 256 :: leBytes w (v / 256)

/-- Little-endian value of a byte list (each entry taken mod 256, as a `u8`). -/
def leVal : List Nat → Nat
  | [] => 0
  | b :: rest => b % 256 + 256 * leVal rest

/-- Index of the first NUL byte, if any; position as in `slc.iter().position`. -/
def firstNulIdx : List Nat → Option Nat
  | [] => none
  | b :: rest => if b = 0 then some 0 else (firstNulIdx rest).map (· + 1)

/-- Whether `b` is a UTF-8 continuation byte. -/
def utf8Cont (b : Nat) : Bool := decide (0x80 ≤ b) && decide (b ≤ 0xBF)

/-- UTF-8 validity of a byte sequence, as checked by `str::from_utf8`
(RFC 3629 table: no overlong encodings, no surrogates, max U+10FFFF). -/
def utf8Valid : List Nat → Bool
  | [] => true
  | b :: rest =>
    if b ≤ 0x7F then utf8Valid rest
    else if 0xC2 ≤ b ∧ b ≤ 0xDF then
      match rest with
      | c1 :: rest1 => utf8Cont c1 && utf8Valid rest1
      | [] => false
    else if b = 0xE0 then
      match rest with
      | c1 :: c2 :: rest2 =>
        (decide (0xA0 ≤ c1) && decide (c1 ≤ 0xBF)) && utf8Cont c2 && utf8Valid rest2
      | _ => false
    else if 0xE1 ≤ b ∧ b ≤ 0xEC then
      match rest with
      | c1 :: c2 :: rest2 => utf8Cont c1 && utf8Cont c2 && utf8Valid rest2
      | _ => false
    else if b = 0xED then
      match rest with
      | c1 :: c2 :: rest2 =>
        (decide (0x80 ≤ c1) && decide (c1 ≤ 0x9F)) && utf8Cont c2 && utf8Valid rest2
      | _ => false
    else if 0xEE ≤ b ∧ b ≤ 0xEF then
      match rest with
      | c1 :: c2 :: rest2 => utf8Cont c1 && utf8Cont c2 && utf8Valid rest2
      | _ => false
    else if b = 0xF0 then
      match rest with
      | c1 :: c2 :: c3 :: rest3 =>
        (decide (0x90 ≤ c1) && decide (c1 ≤ 0xBF)) && utf8Cont c2 && utf8Cont c3 &&
          utf8Valid rest3
      | _ => false
    else if 0xF1 ≤ b ∧ b ≤ 0xF3 then
      match rest with
      | c1 :: c2 :: c3 :: rest3 => utf8Cont c1 && utf8Cont c2 && utf8Cont c3 && utf8Valid rest3
      | _ => false
    else if b = 0xF4 then
      match rest with
      | c1 :: c2 :: c3 :: rest3 =>
        (decide (0x80 ≤ c1) && decide (c1 ≤ 0x8F)) && utf8Cont c2 && utf8Cont c3 &&
          utf8Valid rest3
      | _ => false
    else false

/-- The util.rs helper `str_from_byte_slice` (not under src; modelled from the
spec and the call sites): return the bytes strictly before the first NUL when
they form valid UTF-8, otherwise `none`.  `str_from_c_str` behaves identically
on the byte view of a `c_char` array. -/
def str_from_byte_slice (l : List Nat) : Option (List Nat) :=
  match firstNulIdx l with
  | none => none
  | some i => if utf8Valid (l.take i) then some (l.take i) else none

/-! Binary record codec -/

/-- One table-load target: (sector_start, length, target_type bytes, params bytes). -/
abbrev Target := Nat × Nat × List Nat × List Nat

instance : DecidableEq Target := inferInstance

/-- Serialization of one target as written by `DM::table_load`: the 40-byte
`dm_target_spec` record (status written as 0, `next` as
`size_of::<Struct_dm_target_spec>() + aligned_len`), then the params bytes,
then NUL padding up to `align_to(params.len() + 1, 8)`. -/
def encodeTarget (ss ln : Nat) (tt params : List Nat) : List Nat :=
  let alignedLen := align_to (params.length + 1) 8
  leBytes 8 ss ++ leBytes 8 ln ++ leBytes 4 0 ++ leBytes 4 (targetSpecSize + alignedLen) ++
    (tt ++ List.replicate (16 - tt.length) 0) ++
    (params ++ List.replicate (alignedLen - params.length) 0)

/-- The target-serialization loop of `DM::table_load` (src/core/dm.rs).  The
source asserts `target_type.len() <= targ.target_type.len()` (16 bytes);
the assertion failure (a Rust panic) is modelled as `none`. -/
def table_load_targets : List Target → Option (List Nat)
  | [] => some []
  | (ss, ln, tt, params) :: ts =>
    if tt.length ≤ 16 then
      (table_load_targets ts).map (fun rest => encodeTarget ss ln tt params ++ rest)
    else none

/-- Outcome of a decode entry point.  `.error` is a returned `DmError`
(malformed response); `.oob` is an access the Rust code performs without a
sufficient bounds check: an out-of-range slice index (panic) or a raw-pointer
read of a fixed-size struct extending past the buffer (out-of-bounds read). -/
inductive ParseResult (α : Type) where
  | ok (val : α)
  | error
  | oob
  | noFuel
  deriving DecidableEq

/-- Loop body of `DM::parse_table_status`: `count` iterations; at each, the
record is read at absolute offset `next_off` into `buf` (the source assigns
`next_off = targ.next as usize`, an offset from the start of `buf`, not
relative to the current record).  Field reads follow the source order:
target_type (bytes 24..40 of the record), params (first NUL from byte 40 of
the record to the end of the buffer), then sector_start, length and next. -/
def parse_table_status_go (buf : List Nat) : Nat → Nat → List Target → ParseResult (List Target)
  | 0, _, acc => .ok acc
  | n + 1, off, acc =>
    if buf.length < off + targetSpecSize then .oob
    else
      match str_from_byte_slice ((buf.drop (off + 24)).take 16) with
      | none => .error
      | some tt =>
        match str_from_byte_slice (buf.drop (off + targetSpecSize)) with
        | none => .error
        | some params =>
          let ss := leVal ((buf.drop off).take 8)
          let ln := leVal ((buf.drop (off + 8)).take 8)
          let nxt := leVal ((buf.drop (off + 20)).take 4)
          parse_table_status_go buf n nxt (acc ++ [(ss, ln, tt, params)])

/-- `DM::parse_table_status` (src/core/dm.rs): on an empty buffer the loop is
skipped and the empty list returned; otherwise walk `count` records starting
at offset 0. -/
def parse_table_status (count : Nat) (buf : List Nat) : ParseResult (List Target) :=
  if buf.isEmpty then .ok [] else parse_table_status_go buf count 0 []

/-! Device-list decoding (DM::list_devices) -/

/-- Modelled from the spec: `DmName` validation lives in types.rs, which is not
under src (src/core/dm.rs only calls `DmNameBuf::new`).  Spec section 3 requires
a validated name: nonempty, bounded length (the header name field is 128 bytes
and NUL-terminated, so at most 127 bytes), no NUL byte, no path separator. -/
def dm_name_new (s : List Nat) : Option (List Nat) :=
  if s.length = 0 then none
  else if 127 < s.length then none
  else if s.contains 0 then none
  else if s.contains 47 then none
  else some s

/-- Modelled from the spec: `DmUuid` validation (types.rs, not under src):
nonempty, at most 128 bytes (129-byte NUL-terminated field), no NUL byte. -/
def dm_uuid_new (s : List Nat) : Option (List Nat) :=
  if s.length = 0 then none
  else if 128 < s.length then none
  else if s.contains 0 then none
  else some s

/-- One decoded device-list entry: (name bytes, dev as u64, optional event number). -/
abbrev NameListEntry := List Nat × Nat × Option Nat

/-- Loop body of `DM::list_devices` (src/core/dm.rs).  Per iteration, on the
current tail `result` of the payload: the `Struct_dm_name_list` head must fit
(`c_struct_from_slice`, modelled from the spec as a 16-byte bounds check that
yields a malformed-response error on a short buffer); the name is the bytes
from offset 12 to the first NUL; when the kernel minor version is above 36 the
event number is the native-endian u32 at `align_to(name_offset + len + 1, 8)`
relative to the record — the source slices `result[offset..offset + 4]`, which
panics (`.oob`) when it runs past the buffer; the name is then validated by
`DmNameBuf::new`; a zero `next` ends the walk, otherwise the walk advances by
`next` bytes relative to the current record (`&result[device.next..]`, which
panics when `next` exceeds the tail length).  Fuel decreases each iteration;
each advance drops at least one byte, so `buf.length + 1` fuel suffices. -/
def list_devices_go (minor : Nat) :
    Nat → List Nat → List NameListEntry → ParseResult (List NameListEntry)
  | 0, _, _ => .noFuel
  | fuel + 1, result, acc =>
    if result.length < 16 then .error
    else
      match str_from_byte_slice (result.drop 12) with
      | none => .error
      | some name =>
        let eventRead : Option (Option Nat) :=
          if minor ≤ 36 then some none
          else
            let off := align_to (12 + name.length + 1) 8
            if result.length < off + 4 then none
            else some (some (leVal ((result.drop off).take 4)))
        match eventRead with
        | none => .oob
        | some ev =>
          match dm_name_new name with
          | none => .error
          | some _ =>
            let dev := leVal (result.take 8)
            let nxt := leVal ((result.drop 8).take 4)
            let acc1 := acc ++ [(name, dev, ev)]
            if nxt = 0 then .ok acc1
            else if result.length < nxt then .oob
            else list_devices_go minor fuel (result.drop nxt) acc1

/-- The name-list walk of `DM::list_devices`: empty payload decodes to the
empty device list; otherwise walk the offset-linked records.  `minor` is the
kernel-reported minor protocol version `hdr.version[1]`. -/
def list_devices (minor : Nat) (buf : List Nat) : ParseResult (List NameListEntry) :=
  if buf.isEmpty then .ok [] else list_devices_go minor (buf.length + 1) buf []

/-! Header construction (DmOptions::to_ioctl_hdr) -/

/-- The fields of `Struct_dm_ioctl` relevant to header construction. -/
structure Struct_dm_ioctl where
  flags : Nat
  event_nr : Nat
  data_start : Nat
  name : List Nat
  uuid : List Nat
  deriving DecidableEq

/-- A device identity: a validated name or a validated UUID. -/
inductive DevId where
  | name (s : List Nat)
  | uuid (s : List Nat)
  deriving DecidableEq

/-- `DM::hdr_set_name` writes the validated name bytes into the fixed 128-byte
field (zero padded); constructing the `DmName` argument performs the
validation (`dm_name_new`, modelled from the spec). -/
def hdr_set_name (hdr : Struct_dm_ioctl) (s : List Nat) : Option Struct_dm_ioctl :=
  (dm_name_new s).map fun v => { hdr with name := v ++ List.replicate (128 - v.length) 0 }

/-- `DM::hdr_set_uuid`, analogous to `hdr_set_name` for the 129-byte uuid field. -/
def hdr_set_uuid (hdr : Struct_dm_ioctl) (s : List Nat) : Option Struct_dm_ioctl :=
  (dm_uuid_new s).map fun v => { hdr with uuid := v ++ List.replicate (129 - v.length) 0 }

/-- `DmOptions::to_ioctl_hdr` (src/core/dm.rs): flags are the caller flags
masked by the command's allowable flags; `event_nr` carries the udev flag bits
shifted by `DM_UDEV_FLAGS_SHIFT` (16); `data_start` is the header size; the
name or uuid of the identity, when present, is written into its fixed field. -/
def to_ioctl_hdr (optFlags udevFlagBits allowableFlags : Nat) (id : Option DevId) :
    Option Struct_dm_ioctl :=
  let hdr0 : Struct_dm_ioctl :=
    { flags := allowableFlags &&& optFlags
      event_nr := udevFlagBits <<< 16
      data_start := hdrSize
      name := List.replicate 128 0
      uuid := List.replicate 129 0 }
  match id with
  | none => some hdr0
  | some (.name s) => hdr_set_name hdr0 s
  | some (.uuid s) => hdr_set_uuid hdr0 s

/-! Device major/minor and u64 conversion (src/lib.rs) -/

/-- A struct containing the device major (u32) and minor (u8) numbers. -/
structure Device where
  major : Nat
  minor : Nat
  deriving DecidableEq

/-- `From<u64> for Device`: `major = (val >> 8) as u32` (truncating to 32
bits), `minor = (val & 0xff) as u8`. -/
def Device.fromU64 (v : Nat) : Device :=
  ⟨(v / 256) % 4294967296, v % 256⟩

/-- `From<Device> for u64`: `((dev.major << 8) ^ (dev.minor as u32 & 0xff)) as
u64`; the shift is performed in u32, so it wraps modulo `2^32` before the
zero-extension to u64. -/
def Device.toU64 (d : Device) : Nat :=
  ((d.major * 256) % 4294967296) ^^^ (d.minor &&& 255)

/-! Ioctl transport (DM::do_ioctl and DM::ioctl) -/

/-- The part of the kernel reply that `do_ioctl` inspects: the response header
flags, `data_start`, `data_size`, and the full buffer content as rewritten by
the kernel. -/
structure KernelResp where
  flags : Nat
  data_start : Nat
  data_size : Nat
  content : List Nat
  deriving DecidableEq

/-- Outcome of one ioctl syscall: an errno, or a kernel-rewritten buffer. -/
inductive KernelReply where
  | errno (e : Nat)
  | resp (r : KernelResp)
  deriving DecidableEq

/-- Observable UdevSync lifecycle events of one `do_ioctl` invocation.
`begin` with the primary-source flag creates the semaphore set (`beginActive`);
without it, no resource is allocated (`beginInactive`).  The model assumes the
semaphore syscalls inside a primary-source `begin` succeed. -/
inductive Event where
  | beginActive
  | beginInactive
  | cancel
  | ended (uevent : Bool)
  deriving DecidableEq

/-- Result of one `do_ioctl` invocation.  `.retryBusy` is
`OperationResult::Retry` (EBUSY on a remove command); `.errIoctl` is
`OperationResult::Err` with an `Ioctl` error; `.errTooLarge` is
`Error::IoctlResultTooLarge`; `.rustPanic` marks a panicking slice operation
(`clone_from_slice` length mismatch or out-of-range index). -/
inductive DoRes where
  | ok (payload : List Nat)
  | retryBusy
  | errIoctl (e : Nat)
  | errTooLarge
  | rustPanic
  | noFuel
  deriving DecidableEq

/-- Output of one `do_ioctl` invocation: result, UdevSync events in order, and
the index of the next syscall (so a caller can count syscalls issued). -/
structure DoIoctlOut where
  res : DoRes
  events : List Event
  next : Nat
  deriving DecidableEq

/-- The udev-flags computation at the top of `DM::do_ioctl` (src/core/dm.rs):
a Rust match whose or-pattern lists the remove, rename and suspend commands
and whose guard requires the suspend flag to be clear.  The guard applies to
every alternative of the or-pattern, so all three commands are gated on the
suspend flag. -/
def computeUdevFlags (cmd flags : Nat) : Nat :=
  if (cmd = DM_DEV_REMOVE_CMD ∨ cmd = DM_DEV_RENAME_CMD ∨ cmd = DM_DEV_SUSPEND_CMD)
      ∧ flags &&& DM_SUSPEND_FLAG = 0
  then DM_UDEV_PRIMARY_SOURCE_FLAG
  else 0

/-- The ioctl-issue loop of `DM::do_ioctl`.  `k idx size` is the kernel's
reply to the `idx`-th syscall on a buffer of `size` bytes.  On an errno the
sync is cancelled and the result is retry (EBUSY on remove) or an error.  On a
reply without `DM_BUFFER_FULL_FLAG` the header is copied back
(`clone_from_slice` panics unless the reply's `data_start` equals the original
312 and fits the buffer), the sync is ended with the uevent-generated flag,
and the payload `v[data_start .. max(data_start, data_size))` is returned.  On
a buffer-full reply: if the buffer is already `u32::MAX` bytes the result is
`IoctlResultTooLarge` — the source returns on this path without cancelling or
ending the sync — otherwise the size is doubled (`saturating_mul(2)` capped at
`u32::MAX`) and the same ioctl is reissued. -/
def growLoop (k : Nat → Nat → KernelReply) (cmd : Nat) :
    Nat → Nat → Nat → DoIoctlOut
  | 0, _, idx => ⟨.noFuel, [], idx⟩
  | fuel + 1, size, idx =>
    match k idx size with
    | .errno e =>
      if e = EBUSY ∧ cmd = DM_DEV_REMOVE_CMD then ⟨.retryBusy, [.cancel], idx + 1⟩
      else ⟨.errIoctl e, [.cancel], idx + 1⟩
    | .resp r =>
      if r.flags &&& DM_BUFFER_FULL_FLAG = 0 then
        if size < r.data_start ∨ r.data_start ≠ hdrSize then ⟨.rustPanic, [], idx + 1⟩
        else
          let ev := Event.ended (r.flags &&& DM_UEVENT_GENERATED_FLAG ≠ 0)
          let newOff := max r.data_start r.data_size
          if size < newOff then ⟨.rustPanic, [ev], idx + 1⟩
          else ⟨.ok ((r.content.drop r.data_start).take (newOff - r.data_start)), [ev], idx + 1⟩
      else if size = u32Max then ⟨.errTooLarge, [], idx + 1⟩
      else growLoop k cmd fuel (min (2 * size) u32Max) (idx + 1)

/-- One invocation of `DM::do_ioctl` (src/core/dm.rs): stamp versions (not
modelled — the kernel oracle ignores the request content), compute the udev
flags, begin the UdevSync (recorded as the first event), size the buffer to
`max(MIN_BUF_SIZE, header_size + input_len)` (the `as u32` cast wraps modulo
`2^32`), and run the ioctl-reissue loop. -/
def do_ioctl (k : Nat → Nat → KernelReply) (cmd flags inLen fuel idx : Nat) : DoIoctlOut :=
  let udevFlags := computeUdevFlags cmd flags
  let beginEv :=
    if udevFlags &&& DM_UDEV_PRIMARY_SOURCE_FLAG = 0 then Event.beginInactive
    else Event.beginActive
  let size := (max MIN_BUF_SIZE (hdrSize + inLen)) % 4294967296
  let out := growLoop k cmd fuel size idx
  ⟨out.res, beginEv :: out.events, out.next⟩

/-- The `retry_with_index(Fixed::from_millis(..).take(IOCTL_RETRIES), ..)`
loop of `DM::ioctl` (src/core/dm.rs): the operation runs once, and each
`OperationResult::Retry` consumes one of the `IOCTL_RETRIES` delays; when the
delays are exhausted the last retry error (an `Ioctl` error carrying EBUSY) is
returned.  The second component counts `do_ioctl` attempts. -/
def retryLoop (k : Nat → Nat → KernelReply) (cmd flags inLen fuel : Nat) :
    Nat → Nat → DoRes × Nat
  | 0, idx =>
    match (do_ioctl k cmd flags inLen fuel idx).res with
    | .retryBusy => (.errIoctl EBUSY, 1)
    | r => (r, 1)
  | d + 1, idx =>
    let out := do_ioctl k cmd flags inLen fuel idx
    match out.res with
    | .retryBusy =>
      let r := retryLoop k cmd flags inLen fuel d out.next
      (r.1, r.2 + 1)
    | r => (r, 1)

/-- `DM::ioctl`: run `do_ioctl` under the bounded fixed-delay retry policy.
Returns the final result and the number of `do_ioctl` attempts made. -/
def ioctl_model (k : Nat → Nat → KernelReply) (cmd flags inLen fuel : Nat) : DoRes × Nat :=
  retryLoop k cmd flags inLen fuel IOCTL_RETRIES 0

/-- Total attempts the retry policy allows: the initial call plus one per delay. -/
def retryBound : Nat := IOCTL_RETRIES + 1

/-- A simulated kernel that reports buffer-full for sizes below threshold `T`
and replies `resp` at or above it. -/
def thresholdKernel (T : Nat) (resp : KernelResp) : Nat → Nat → KernelReply :=
  fun _ size =>
    if size < T then .resp ⟨DM_BUFFER_FULL_FLAG, 0, 0, []⟩ else .resp resp

/-- A simulated kernel that reports EBUSY on the first `K` syscalls and
replies `resp` afterwards. -/
def busyKernel (K : Nat) (resp : KernelResp) : Nat → Nat → KernelReply :=
  fun idx _ => if idx < K then .errno EBUSY else .resp resp

/-- Ceiling division, used to state the growth-iteration count
`ceil(log2(T / floor))` as `Nat.clog 2 (cldiv T floor)`. -/
def cldiv (a b : Nat) : Nat := (a + b - 1) / b

/-! Concrete inputs used by counterexamples and witnesses -/

/-- Three well-formed targets (types and params are single NUL-free ASCII bytes). -/
def ts3 : List Target := [(0, 1, [97], [112]), (2, 3, [98], [113]), (4, 5, [99], [114])]

/-- The serialization of `ts3` (three 48-byte records). -/
def bufC1 : List Nat := (table_load_targets ts3).getD []

/-- A single 48-byte target record whose `next` field is zero. -/
def bufC7 : List Nat :=
  leBytes 8 7 ++ leBytes 8 9 ++ leBytes 4 0 ++ leBytes 4 0 ++
    ([116] ++ List.replicate 15 0) ++ ([112] ++ List.replicate 7 0)

/-- A single name-list record: dev 300, next 0, name "abcd" (NUL at offset 16),
then the u32 value 9 at the next 4-byte-aligned offset (20) and the u32 value 5
at the next 8-byte-aligned offset (24). -/
def bufC8 : List Nat :=
  leBytes 8 300 ++ leBytes 4 0 ++ [97, 98, 99, 100, 0] ++ List.replicate 3 0 ++
    leBytes 4 9 ++ leBytes 4 5

/-- A simulated kernel that reports buffer-full at every size. -/
def alwaysFullKernel : Nat → Nat → KernelReply :=
  fun _ _ => .resp ⟨DM_BUFFER_FULL_FLAG, 0, 0, []⟩

/-- Well-formedness of a target for the encode/decode round-trip: sector
fields fit u64; the type is at most 15 bytes (so the 16-byte field keeps a NUL
terminator), NUL-free and valid UTF-8; the params string is NUL-free and valid
UTF-8; and the record length fits the u32 `next` field. -/
def wfTarget : Target → Bool
  | (ss, ln, tt, params) =>
    decide (ss < 18446744073709551616) && decide (ln < 18446744073709551616) &&
    decide (tt.length ≤ 15) && !(tt.contains 0) && utf8Valid tt &&
    !(params.contains 0) && utf8Valid params &&
    decide (targetSpecSize + align_to (params.length + 1) 8 < 4294967296)

/-- Two well-formed targets used as a round-trip witness. -/
def tsW : List Target := [(10, 20, [108], [112, 113]), (30, 40, [109], [114])]

/-! C2: decode safety at the trust boundary -/

/-- Claim C2: the claim that every input buffer is either decoded or rejected with a
MalformedResponse-kind error, with no out-of-bounds access, fails on the code:
on the 1-byte buffer `[0]` with count 1, `parse_table_status` reads a 40-byte
`dm_target_spec` through an unchecked raw-pointer cast, an out-of-bounds read
(`.oob`), rather than returning a decoded result or an error value. -/
theorem parse_table_status_oob_on_short_buffer :
    parse_table_status 1 [0] = .oob := by decide

/-! C3: UdevSync consumption on every do_ioctl path -/

/-- Claim C3: the claim that a successfully begun UdevSync is consumed by exactly one
`end` or `cancel` on every `do_ioctl` path fails on the response-too-large
path: with a kernel reporting buffer-full at every size, a remove command
(whose begin is active/primary-source) returns `IoctlResultTooLarge` with no
`cancel` and no `end` event — the semaphore set is leaked. -/
theorem do_ioctl_leaks_udev_sync_on_too_large :
    (do_ioctl alwaysFullKernel DM_DEV_REMOVE_CMD 0 0 64 0).res = DoRes.errTooLarge ∧
    (do_ioctl alwaysFullKernel DM_DEV_REMOVE_CMD 0 0 64 0).events = [Event.beginActive] := by
  decide

/-! C6: primary-event-source condition -/

/-- Counterexample for C6: the claim says remove is a primary event source
regardless of the suspend flag, but a remove command issued with the suspend
flag set begins an inactive transaction (the Rust match guard applies to all
three or-pattern alternatives). -/
theorem primary_source_remove_with_suspend_flag_cex :
    (do_ioctl (fun _ _ => KernelReply.errno 2) DM_DEV_REMOVE_CMD DM_SUSPEND_FLAG 0 1 0).events.head?
      ≠ some Event.beginActive := by decide

/-- Amended C6: `do_ioctl` begins an active (primary-event-source) UdevSync
transaction exactly when the command is remove, rename or suspend AND the
header's suspend flag is clear; the suspend-flag condition gates all three
commands, and every other command begins an inactive transaction. -/
theorem primary_source_condition (k : Nat → Nat → KernelReply) (cmd flags inLen fuel idx : Nat) :
    (do_ioctl k cmd flags inLen fuel idx).events.head? = some Event.beginActive ↔
      ((cmd = DM_DEV_REMOVE_CMD ∨ cmd = DM_DEV_RENAME_CMD ∨ cmd = DM_DEV_SUSPEND_CMD)
        ∧ flags &&& DM_SUSPEND_FLAG = 0) := by
  by_cases h : (cmd = DM_DEV_REMOVE_CMD ∨ cmd = DM_DEV_RENAME_CMD ∨ cmd = DM_DEV_SUSPEND_CMD)
      ∧ flags &&& DM_SUSPEND_FLAG = 0
  · simp [do_ioctl, computeUdevFlags, DM_UDEV_PRIMARY_SOURCE_FLAG, h]
  · simp [do_ioctl, computeUdevFlags, DM_UDEV_PRIMARY_SOURCE_FLAG, h]

/-! C10: Device and u64 conversion round-trip -/

/-- Exclusive-or of a byte-disjoint pair is addition: the low 8 bits of
`a * 256` are zero, so xor with `m < 256` coincides with addition. -/
theorem mul256_xor_eq_add (a m : Nat) (hm : m < 256) : (a * 256) ^^^ m = a * 256 + m := by
  apply Nat.eq_of_testBit_eq
  intro j
  have hmul : a * 256 = 2 ^ 8 * a := by ring
  have hm8 : m < 2 ^ 8 := by norm_num at hm ⊢; omega
  rw [Nat.testBit_xor, hmul, Nat.testBit_mul_pow_two_add a hm8 j, Nat.testBit_mul_pow_two]
  by_cases hj : j < 8
  · have : ¬ (8 ≤ j) := by omega
    simp [hj, this]
  · have h8j : 8 ≤ j := by omega
    have hmj : m < 2 ^ j :=
      lt_of_lt_of_le hm8 (Nat.pow_le_pow_right (by norm_num) h8j)
    simp [hj, h8j, Nat.testBit_lt_two_pow hmj]

/-- Claim C10: for a `Device` with `major < 2^24` (and `minor` a u8 value), the
u64 conversion round-trips; for `major ≥ 2^24` the `major << 8` shift
performed in u32 loses the high major bits, so the round-trip is not the
identity (the recovered major is `major % 2^24`). -/
theorem device_u64_roundtrip (major minor : Nat) (hminor : minor < 256) :
    (major < 16777216 →
      Device.fromU64 (Device.toU64 ⟨major, minor⟩) = ⟨major, minor⟩) ∧
    (16777216 ≤ major → major < 4294967296 →
      Device.fromU64 (Device.toU64 ⟨major, minor⟩) ≠ ⟨major, minor⟩) := by
  have hand : minor &&& 255 = minor := by
    have h255 : (255 : Nat) = 2 ^ 8 - 1 := by norm_num
    rw [h255, Nat.and_pow_two_sub_one_eq_mod, Nat.mod_eq_of_lt (by norm_num at hminor ⊢; omega)]
  constructor
  · intro hmaj
    have hlt : major * 256 < 4294967296 := by omega
    have hxor : (major * 256) % 4294967296 ^^^ (minor &&& 255) = major * 256 + minor := by
      rw [Nat.mod_eq_of_lt hlt, hand, mul256_xor_eq_add major minor hminor]
    simp only [Device.fromU64, Device.toU64, hxor]
    have hdiv : (major * 256 + minor) / 256 = major := by omega
    have hmod : (major * 256 + minor) % 256 = minor := by omega
    rw [hdiv, hmod, Nat.mod_eq_of_lt (by omega)]
  · intro hmaj hmaj32
    have hwrap : (major * 256) % 4294967296 = (major % 16777216) * 256 := by
      have : (4294967296 : Nat) = 16777216 * 256 := by norm_num
      rw [this, Nat.mul_mod_mul_right]
    have hxor : (major * 256) % 4294967296 ^^^ (minor &&& 255) =
        (major % 16777216) * 256 + minor := by
      rw [hwrap, hand, mul256_xor_eq_add _ minor hminor]
    simp only [Device.fromU64, Device.toU64, hxor]
    intro hcontra
    have hmaj' : ((major % 16777216) * 256 + minor) / 256 % 4294967296 = major := by
      have := congrArg Device.major hcontra
      simpa using this
    have hdiv : ((major % 16777216) * 256 + minor) / 256 = major % 16777216 := by omega
    rw [hdiv, Nat.mod_eq_of_lt (by omega)] at hmaj'
    have : major % 16777216 < 16777216 := Nat.mod_lt _ (by norm_num)
    omega

/-- Witness for C10 at `major = 5, minor = 7` (round-trip holds) and at
`major = 2^24, minor = 7` (round-trip fails). -/
theorem device_u64_roundtrip_witness :
    Device.fromU64 (Device.toU64 ⟨5, 7⟩) = Device.mk 5 7 ∧
    Device.fromU64 (Device.toU64 ⟨16777216, 7⟩) ≠ Device.mk 16777216 7 :=
  ⟨(device_u64_roundtrip 5 7 (by decide)).1 (by decide),
   (device_u64_roundtrip 16777216 7 (by decide)).2 (by decide) (by decide)⟩

/-! C9: identity validation before header construction -/

/-- Claim C9: header construction rejects, before any syscall, a name containing a
NUL byte, a name longer than the fixed field allows (127 bytes plus the NUL
terminator in the 128-byte field), and an empty name; no truncated or invalid
name is ever written into the header.  The validation itself (`DmName`
construction) lives in types.rs, which is not under src, and is modelled from
the spec. -/
theorem to_ioctl_hdr_rejects_invalid_name (optFlags udevF allowable : Nat) (s : List Nat)
    (h : 0 ∈ s ∨ 127 < s.length ∨ s = []) :
    to_ioctl_hdr optFlags udevF allowable (some (.name s)) = none := by
  have hn : dm_name_new s = none := by
    unfold dm_name_new
    split_ifs with h1 h2 h3 h4 <;> try rfl
    exfalso
    rcases h with h | h | h
    · exact h3 (List.elem_iff.mpr h)
    · exact h2 h
    · subst h; simp at h1
  simp [to_ioctl_hdr, hdr_set_name, hn]

/-- Witness for C9 at the one-byte NUL name `[0]`. -/
theorem to_ioctl_hdr_rejects_invalid_name_witness :
    (0 ∈ ([0] : List Nat) ∨ 127 < ([0] : List Nat).length ∨ ([0] : List Nat) = []) ∧
    to_ioctl_hdr 0 0 0 (some (.name [0])) = none :=
  ⟨Or.inl (by decide),
   to_ioctl_hdr_rejects_invalid_name 0 0 0 [0] (Or.inl (by decide))⟩

/-! C7: zero next offset before the n-th record -/

/-- Counterexample for C7: on a buffer holding a single record whose `next` field
is zero, with count 2, `parse_table_status` does not fail with an error — it
returns two (duplicated) tuples, re-reading the record at offset 0. -/
theorem parse_table_status_zero_next_cex :
    parse_table_status 2 bufC7 = .ok [(7, 9, [116], [112]), (7, 9, [116], [112])] := by
  decide

/-- Amended C7: a zero `next` on a record before the n-th is neither an
error nor an early terminator: `parse_table_status` treats `next` as an
absolute offset, so a zero sends the walk back to offset 0 and the first
record is decoded again; when the first record parses, the result is `count`
copies of it with no error reported. -/
theorem parse_table_status_zero_next_replicates (buf tt pp : List Nat) (n : Nat)
    (hne : buf ≠ [])
    (hlen : targetSpecSize ≤ buf.length)
    (htt : str_from_byte_slice ((buf.drop 24).take 16) = some tt)
    (hpp : str_from_byte_slice (buf.drop targetSpecSize) = some pp)
    (hnxt : leVal ((buf.drop 20).take 4) = 0) :
    parse_table_status n buf =
      .ok (List.replicate n (leVal (buf.take 8), leVal ((buf.drop 8).take 8), tt, pp)) := by
  have hgo : ∀ m acc, parse_table_status_go buf m 0 acc =
      .ok (acc ++ List.replicate m (leVal (buf.take 8), leVal ((buf.drop 8).take 8), tt, pp)) := by
    intro m
    induction m with
    | zero => intro acc; simp [parse_table_status_go]
    | succ k ih =>
      intro acc
      have hnot : ¬ (buf.length < 0 + targetSpecSize) := by omega
      simp only [parse_table_status_go]
      rw [if_neg hnot]
      simp only [Nat.zero_add, htt, hpp, hnxt]
      rw [ih]
      simp [List.replicate_succ]
  have hfalse : ¬ (buf.isEmpty = true) := by
    intro hemp
    exact hne (List.isEmpty_iff.mp hemp)
  rw [parse_table_status, if_neg hfalse, hgo n []]
  simp

/-- Witness for C7's amended statement at `bufC7` with count 3. -/
theorem parse_table_status_zero_next_replicates_witness :
    (bufC7 ≠ [] ∧ targetSpecSize ≤ bufC7.length ∧
      str_from_byte_slice ((bufC7.drop 24).take 16) = some [116] ∧
      str_from_byte_slice (bufC7.drop targetSpecSize) = some [112] ∧
      leVal ((bufC7.drop 20).take 4) = 0) ∧
    parse_table_status 3 bufC7 =
      .ok (List.replicate 3 (leVal (bufC7.take 8), leVal ((bufC7.drop 8).take 8), [116], [112])) :=
  ⟨by decide,
   parse_table_status_zero_next_replicates bufC7 [116] [112] 3 (by decide) (by decide)
     (by decide) (by decide) (by decide)⟩

/-! Helper lemmas about the byte-level primitives -/

theorem leBytes_length (w v : Nat) : (leBytes w v).length = w := by
  induction w generalizing v with
  | zero => rfl
  | succ k ih => simp [leBytes, ih]

theorem leVal_leBytes (w v : Nat) : leVal (leBytes w v) = v % 256 ^ w := by
  induction w generalizing v with
  | zero => simp [leBytes, leVal, Nat.mod_one]
  | succ k ih =>
    rw [leBytes, leVal, ih]
    have h1 : v % 256 % 256 = v % 256 := by omega
    rw [h1, pow_succ, mul_comm (256 ^ k) 256, Nat.mod_mul]

theorem align8_ge (x : Nat) : x ≤ align_to x 8 := by
  unfold align_to
  omega

theorem firstNul_append (s r : List Nat) (h : 0 ∉ s) :
    firstNulIdx (s ++ 0 :: r) = some s.length := by
  induction s with
  | nil => simp [firstNulIdx]
  | cons a l ih =>
    have ha : a ≠ 0 := fun he => h (by simp [he])
    have hl : 0 ∉ l := fun hm => h (by simp [hm])
    simp [firstNulIdx, ha, ih hl]

theorem str_from_byte_slice_append (s r : List Nat) (h0 : 0 ∉ s) (hu : utf8Valid s = true) :
    str_from_byte_slice (s ++ 0 :: r) = some s := by
  unfold str_from_byte_slice
  rw [firstNul_append s r h0]
  have htake : List.take s.length (s ++ 0 :: r) = s := List.take_left s (0 :: r)
  simp only [htake, if_pos hu]

theorem str_from_byte_slice_pad (s : List Nat) (j : Nat) (r : List Nat)
    (h0 : 0 ∉ s) (hu : utf8Valid s = true) :
    str_from_byte_slice (s ++ (List.replicate (j + 1) 0 ++ r)) = some s := by
  rw [List.replicate_succ, List.cons_append]
  exact str_from_byte_slice_append s _ h0 hu

/-! C8: version-gated event number in device-list entries -/

/-- Counterexample for C8: on a record whose name NUL falls at offset 16, the next
4-byte-aligned position is 20 (holding the value 9) while the next 8-byte-
aligned position is 24 (holding the value 5); with kernel minor version 37,
`list_devices` reads the event number at the 8-byte-aligned offset
(`align_to(.., size_of::<u64>())` in the source), not the 4-byte-aligned one
the claim states. -/
theorem list_devices_event_nr_alignment_cex :
    list_devices 37 bufC8 =
      .ok [([97, 98, 99, 100], 300, some (leVal ((bufC8.drop (align_to 17 8)).take 4)))] ∧
    list_devices 37 bufC8 ≠
      .ok [([97, 98, 99, 100], 300, some (leVal ((bufC8.drop (align_to 17 4)).take 4)))] := by
  decide

/-- Amended C8: for a well-formed single-record device-list buffer,
`list_devices` returns no event number when the kernel minor protocol version
is at most 36, and otherwise reads the event number as a 4-byte native-endian
integer from the next 8-byte-aligned position following the NUL that
terminates the device name (the source aligns to `size_of::<u64>()`). -/
theorem list_devices_event_nr_version_gate (minor d : Nat) (name tail : List Nat)
    (hn1 : name ≠ []) (hn2 : name.length ≤ 127) (hn3 : 0 ∉ name) (hn4 : 47 ∉ name)
    (hnu : utf8Valid name = true) (htail : 4 ≤ tail.length) :
    list_devices minor
        (leBytes 8 d ++ leBytes 4 0 ++ name ++ [0] ++
          List.replicate (align_to (13 + name.length) 8 - (13 + name.length)) 0 ++ tail) =
      .ok [(name, d % 18446744073709551616,
            if minor ≤ 36 then none else some (leVal (tail.take 4)))] := by
  have hnl : 1 ≤ name.length := by
    cases name with
    | nil => exact absurd rfl hn1
    | cons a l => simp
  have halign : 13 + name.length ≤ align_to (13 + name.length) 8 := align8_ge _
  set pad := align_to (13 + name.length) 8 - (13 + name.length) with hpad
  set buf := leBytes 8 d ++ leBytes 4 0 ++ name ++ [0] ++ List.replicate pad 0 ++ tail with hbuf
  have hlen8 : (leBytes 8 d).length = 8 := leBytes_length 8 d
  have hlen4 : (leBytes 4 0).length = 4 := leBytes_length 4 0
  have hbuflen : buf.length = 13 + name.length + pad + tail.length := by
    simp [hbuf, hlen8, hlen4]
    omega
  have hdrop12 : buf.drop 12 = name ++ 0 :: (List.replicate pad 0 ++ tail) := by
    have hsplit : buf = (leBytes 8 d ++ leBytes 4 0) ++
        (name ++ 0 :: (List.replicate pad 0 ++ tail)) := by
      simp [hbuf, List.append_assoc]
    rw [hsplit, List.drop_left' (by simp [hlen8, hlen4])]
  have hname : str_from_byte_slice (buf.drop 12) = some name := by
    rw [hdrop12]
    exact str_from_byte_slice_append name _ hn3 hnu
  have htake8 : buf.take 8 = leBytes 8 d := by
    have hsplit : buf = leBytes 8 d ++
        (leBytes 4 0 ++ (name ++ 0 :: (List.replicate pad 0 ++ tail))) := by
      simp [hbuf, List.append_assoc]
    rw [hsplit, List.take_left' hlen8]
  have hdrop8 : buf.drop 8 = leBytes 4 0 ++ (name ++ 0 :: (List.replicate pad 0 ++ tail)) := by
    have hsplit : buf = leBytes 8 d ++
        (leBytes 4 0 ++ (name ++ 0 :: (List.replicate pad 0 ++ tail))) := by
      simp [hbuf, List.append_assoc]
    rw [hsplit, List.drop_left' hlen8]
  have hnext : leVal ((buf.drop 8).take 4) = 0 := by
    rw [hdrop8, List.take_left' hlen4, leVal_leBytes]
    norm_num
  have hoffeq : align_to (12 + name.length + 1) 8 = 13 + name.length + pad := by
    have h13 : 12 + name.length + 1 = 13 + name.length := by omega
    rw [h13]
    omega
  have hoffdrop : buf.drop (align_to (12 + name.length + 1) 8) = tail := by
    have hsplit : buf = (leBytes 8 d ++ leBytes 4 0 ++ name ++ [0] ++ List.replicate pad 0)
        ++ tail := by
      simp [hbuf, List.append_assoc]
    rw [hsplit, hoffeq, List.drop_left' (by simp [hlen8, hlen4]; omega)]
  have hdmname : dm_name_new name = some name := by
    unfold dm_name_new
    rw [if_neg (by omega), if_neg (by omega),
      if_neg (fun hc => hn3 (List.elem_iff.mp hc)), if_neg (fun hc => hn4 (List.elem_iff.mp hc))]
  have hdev : leVal (buf.take 8) = d % 18446744073709551616 := by
    rw [htake8, leVal_leBytes]
    norm_num
  have hne : ¬ (buf.isEmpty = true) := by
    intro he
    rw [List.isEmpty_iff.mp he] at hbuflen
    simp at hbuflen
    omega
  rw [list_devices, if_neg hne, list_devices_go]
  rw [if_neg (by omega)]
  simp only [hname]
  by_cases hm : minor ≤ 36
  · simp only [if_pos hm, hdmname, hnext, hdev]
    simp [hm]
  · simp only [if_neg hm]
    rw [if_neg (show ¬ (buf.length < align_to (12 + name.length + 1) 8 + 4) by omega)]
    simp only [hoffdrop, hdmname, hnext, hdev]
    simp [hm]

/-- Witness for C8's amended statement: name "abc", minor version 40. -/
theorem list_devices_event_nr_version_gate_witness :
    (([97, 98, 99] : List Nat) ≠ [] ∧ ([97, 98, 99] : List Nat).length ≤ 127 ∧
      0 ∉ ([97, 98, 99] : List Nat) ∧ 47 ∉ ([97, 98, 99] : List Nat) ∧
      utf8Valid [97, 98, 99] = true ∧ 4 ≤ ([1, 2, 3, 4] : List Nat).length) ∧
    list_devices 40
        (leBytes 8 77 ++ leBytes 4 0 ++ [97, 98, 99] ++ [0] ++
          List.replicate (align_to (13 + ([97, 98, 99] : List Nat).length) 8 -
            (13 + ([97, 98, 99] : List Nat).length)) 0 ++ [1, 2, 3, 4]) =
      .ok [([97, 98, 99], 77 % 18446744073709551616,
            if 40 ≤ 36 then none else some (leVal (([1, 2, 3, 4] : List Nat).take 4)))] :=
  ⟨by decide,
   list_devices_event_nr_version_gate 40 77 [97, 98, 99] [1, 2, 3, 4] (by decide) (by decide)
     (by decide) (by decide) (by decide) (by decide)⟩

/-! C1: encode/decode round-trip -/

theorem drop_add (l : List Nat) (a b : Nat) : l.drop (a + b) = (l.drop a).drop b := by
  rw [List.drop_drop, Nat.add_comm]

theorem not_mem_of_contains_eq_false {a : Nat} {l : List Nat}
    (h : l.contains a = false) : a ∉ l := by
  intro hm
  have h2 : l.elem a = true := List.elem_iff.mpr hm
  have h3 : l.contains a = l.elem a := rfl
  rw [h3, h2] at h
  simp at h

theorem encodeTarget_length (ss ln : Nat) (tt params : List Nat) (htt : tt.length ≤ 16) :
    (encodeTarget ss ln tt params).length =
      targetSpecSize + align_to (params.length + 1) 8 := by
  have hp : params.length + 1 ≤ align_to (params.length + 1) 8 := align8_ge _
  simp [encodeTarget, leBytes_length, targetSpecSize]
  omega

/-- One decoding step of `parse_table_status_go` on a well-formed record
placed at offset `off`: the record's tuple is recovered, and the walk
continues at the absolute offset `40 + aligned_param_len` — the record's
`next` field value, independent of `off`. -/
theorem parse_go_step (buf rest : List Nat) (off n : Nat) (acc : List Target)
    (ss ln : Nat) (tt params : List Nat)
    (hbuf : buf.drop off = encodeTarget ss ln tt params ++ rest)
    (htt : tt.length ≤ 15) (htt0 : 0 ∉ tt) (httu : utf8Valid tt = true)
    (hpp0 : 0 ∉ params) (hppu : utf8Valid params = true)
    (hss : ss < 18446744073709551616) (hln : ln < 18446744073709551616)
    (hnx : targetSpecSize + align_to (params.length + 1) 8 < 4294967296) :
    parse_table_status_go buf (n + 1) off acc =
      parse_table_status_go buf n (targetSpecSize + align_to (params.length + 1) 8)
        (acc ++ [(ss, ln, tt, params)]) := by
  have hA : params.length + 1 ≤ align_to (params.length + 1) 8 := align8_ge _
  set A := align_to (params.length + 1) 8 with hAdef
  -- grouped views of the record bytes
  have hg8 : encodeTarget ss ln tt params ++ rest =
      leBytes 8 ss ++ (leBytes 8 ln ++ (leBytes 4 0 ++ (leBytes 4 (targetSpecSize + A) ++
        ((tt ++ List.replicate (16 - tt.length) 0) ++
          (params ++ (List.replicate (A - params.length) 0 ++ rest)))))) := by
    simp [encodeTarget, List.append_assoc]
  have hg20 : encodeTarget ss ln tt params ++ rest =
      (leBytes 8 ss ++ leBytes 8 ln ++ leBytes 4 0) ++ (leBytes 4 (targetSpecSize + A) ++
        ((tt ++ List.replicate (16 - tt.length) 0) ++
          (params ++ (List.replicate (A - params.length) 0 ++ rest)))) := by
    simp [encodeTarget, List.append_assoc]
  have hg24 : encodeTarget ss ln tt params ++ rest =
      (leBytes 8 ss ++ leBytes 8 ln ++ leBytes 4 0 ++ leBytes 4 (targetSpecSize + A)) ++
        ((tt ++ List.replicate (16 - tt.length) 0) ++
          (params ++ (List.replicate (A - params.length) 0 ++ rest))) := by
    simp [encodeTarget, List.append_assoc]
  have hg40 : encodeTarget ss ln tt params ++ rest =
      (leBytes 8 ss ++ leBytes 8 ln ++ leBytes 4 0 ++ leBytes 4 (targetSpecSize + A) ++
        (tt ++ List.replicate (16 - tt.length) 0)) ++
        (params ++ (List.replicate (A - params.length) 0 ++ rest)) := by
    simp [encodeTarget, List.append_assoc]
  -- length bound
  have hlen : ¬ (buf.length < off + targetSpecSize) := by
    have h1 : (buf.drop off).length = buf.length - off := List.length_drop off buf
    have h2 : (encodeTarget ss ln tt params ++ rest).length =
        targetSpecSize + A + rest.length := by
      simp [encodeTarget_length ss ln tt params (by omega), hAdef]
    rw [hbuf] at h1
    rw [h2] at h1
    have : 0 < targetSpecSize := by norm_num [targetSpecSize]
    omega
  -- field reads
  have hfss : leVal ((buf.drop off).take 8) = ss := by
    rw [hbuf, hg8, List.take_left' (leBytes_length 8 ss), leVal_leBytes]
    norm_num
    omega
  have hd8 : buf.drop (off + 8) = leBytes 8 ln ++ (leBytes 4 0 ++ (leBytes 4 (targetSpecSize + A) ++
      ((tt ++ List.replicate (16 - tt.length) 0) ++
        (params ++ (List.replicate (A - params.length) 0 ++ rest))))) := by
    rw [drop_add, hbuf, hg8, List.drop_left' (leBytes_length 8 ss)]
  have hfln : leVal ((buf.drop (off + 8)).take 8) = ln := by
    rw [hd8, List.take_left' (leBytes_length 8 ln), leVal_leBytes]
    norm_num
    omega
  have hd20 : buf.drop (off + 20) = leBytes 4 (targetSpecSize + A) ++
      ((tt ++ List.replicate (16 - tt.length) 0) ++
        (params ++ (List.replicate (A - params.length) 0 ++ rest))) := by
    rw [drop_add, hbuf, hg20, List.drop_left' (by simp [leBytes_length])]
  have hfnx : leVal ((buf.drop (off + 20)).take 4) = targetSpecSize + A := by
    rw [hd20, List.take_left' (leBytes_length 4 _), leVal_leBytes]
    norm_num
    omega
  have hd24 : buf.drop (off + 24) = (tt ++ List.replicate (16 - tt.length) 0) ++
      (params ++ (List.replicate (A - params.length) 0 ++ rest)) := by
    rw [drop_add, hbuf, hg24, List.drop_left' (by simp [leBytes_length])]
  have hftt : str_from_byte_slice ((buf.drop (off + 24)).take 16) = some tt := by
    rw [hd24, List.take_left' (by simp; omega)]
    have h16 : 16 - tt.length = (15 - tt.length) + 1 := by omega
    have hsh : tt ++ List.replicate (16 - tt.length) 0 =
        tt ++ (List.replicate ((15 - tt.length) + 1) 0 ++ []) := by
      rw [h16]
      simp
    rw [hsh]
    exact str_from_byte_slice_pad tt _ [] htt0 httu
  have hd40 : buf.drop (off + targetSpecSize) =
      params ++ (List.replicate (A - params.length) 0 ++ rest) := by
    rw [show off + targetSpecSize = off + 40 from rfl, drop_add, hbuf, hg40,
      List.drop_left' (by simp [leBytes_length]; omega)]
  have hfpp : str_from_byte_slice (buf.drop (off + targetSpecSize)) = some params := by
    rw [hd40]
    have hp1 : A - params.length = (A - params.length - 1) + 1 := by omega
    rw [hp1]
    exact str_from_byte_slice_pad params _ rest hpp0 hppu
  -- assemble the step
  simp only [parse_table_status_go]
  rw [if_neg hlen]
  simp only [hftt, hfpp, hfss, hfln, hfnx]

set_option maxRecDepth 16000 in
/-- Counterexample for C1: for the three-target list `ts3`, encoding with
`table_load`'s serialization and decoding with `parse_table_status` does not
return the original list: the encoder writes each record's `next` relative to
the record, while the decoder treats `next` as an offset from the start of the
buffer, so the third iteration re-reads the second record. -/
theorem table_load_roundtrip_fails_at_three :
    table_load_targets ts3 = some bufC1 ∧
    parse_table_status ts3.length bufC1 =
      .ok [(0, 1, [97], [112]), (2, 3, [98], [113]), (2, 3, [98], [113])] ∧
    parse_table_status ts3.length bufC1 ≠ .ok ts3 := by decide

/-- Amended C1: for a list of at most two well-formed targets, encoding with
`table_load`'s serialization and decoding the bytes with `parse_table_status`
yields the same tuples in the same order.  (For a first record at offset 0 the
self-relative and absolute readings of `next` coincide, so the decode reaches
the second record correctly; from the third record on they diverge.) -/
theorem table_load_roundtrip_le_two (ts : List Target)
    (hlen : ts.length ≤ 2) (hwf : ∀ t ∈ ts, wfTarget t = true) :
    ∃ buf, table_load_targets ts = some buf ∧
      parse_table_status ts.length buf = .ok ts := by
  rcases ts with _ | ⟨t0, ts1⟩
  · exact ⟨[], by simp [table_load_targets], by simp [parse_table_status]⟩
  rcases t0 with ⟨ss0, ln0, tt0, pp0⟩
  have hwf0 := hwf (ss0, ln0, tt0, pp0) (by simp)
  simp only [wfTarget, Bool.and_eq_true, decide_eq_true_eq, Bool.not_eq_true'] at hwf0
  obtain ⟨⟨⟨⟨⟨⟨⟨hss0, hln0⟩, htl0⟩, htc0⟩, htu0⟩, hpc0⟩, hpu0⟩, hnx0⟩ := hwf0
  have htm0 : 0 ∉ tt0 := not_mem_of_contains_eq_false htc0
  have hpm0 : 0 ∉ pp0 := not_mem_of_contains_eq_false hpc0
  have h16a : tt0.length ≤ 16 := by omega
  rcases ts1 with _ | ⟨t1, ts2⟩
  · -- singleton list
    refine ⟨encodeTarget ss0 ln0 tt0 pp0, ?_, ?_⟩
    · simp [table_load_targets, h16a]
    · have hne : ¬ ((encodeTarget ss0 ln0 tt0 pp0).isEmpty = true) := by
        have hlenE := encodeTarget_length ss0 ln0 tt0 pp0 h16a
        intro he
        rw [List.isEmpty_iff.mp he] at hlenE
        simp only [List.length_nil, targetSpecSize] at hlenE
        omega
      rw [parse_table_status, if_neg hne]
      simp only [List.length_cons, List.length_nil]
      rw [parse_go_step (encodeTarget ss0 ln0 tt0 pp0) [] 0 0 [] ss0 ln0 tt0 pp0
        (by simp) htl0 htm0 htu0 hpm0 hpu0 hss0 hln0 hnx0]
      simp [parse_table_status_go]
  rcases t1 with ⟨ss1, ln1, tt1, pp1⟩
  have hwf1 := hwf (ss1, ln1, tt1, pp1) (by simp)
  simp only [wfTarget, Bool.and_eq_true, decide_eq_true_eq, Bool.not_eq_true'] at hwf1
  obtain ⟨⟨⟨⟨⟨⟨⟨hss1, hln1⟩, htl1⟩, htc1⟩, htu1⟩, hpc1⟩, hpu1⟩, hnx1⟩ := hwf1
  have htm1 : 0 ∉ tt1 := not_mem_of_contains_eq_false htc1
  have hpm1 : 0 ∉ pp1 := not_mem_of_contains_eq_false hpc1
  have h16b : tt1.length ≤ 16 := by omega
  rcases ts2 with _ | ⟨t2, ts3⟩
  · -- two-element list
    have hL0 : (encodeTarget ss0 ln0 tt0 pp0).length =
        targetSpecSize + align_to (pp0.length + 1) 8 :=
      encodeTarget_length ss0 ln0 tt0 pp0 h16a
    refine ⟨encodeTarget ss0 ln0 tt0 pp0 ++ encodeTarget ss1 ln1 tt1 pp1, ?_, ?_⟩
    · simp [table_load_targets, h16a, h16b]
    · have hne : ¬ ((encodeTarget ss0 ln0 tt0 pp0 ++
          encodeTarget ss1 ln1 tt1 pp1).isEmpty = true) := by
        intro he
        have hco := congrArg List.length (List.isEmpty_iff.mp he)
        simp only [List.length_append, List.length_nil, hL0, targetSpecSize] at hco
        omega
      rw [parse_table_status, if_neg hne]
      simp only [List.length_cons, List.length_nil]
      rw [parse_go_step (encodeTarget ss0 ln0 tt0 pp0 ++ encodeTarget ss1 ln1 tt1 pp1)
        (encodeTarget ss1 ln1 tt1 pp1) 0 (0 + 1) [] ss0 ln0 tt0 pp0
        (by simp) htl0 htm0 htu0 hpm0 hpu0 hss0 hln0 hnx0]
      rw [parse_go_step (encodeTarget ss0 ln0 tt0 pp0 ++ encodeTarget ss1 ln1 tt1 pp1)
        [] (targetSpecSize + align_to (pp0.length + 1) 8) 0
        ([] ++ [(ss0, ln0, tt0, pp0)]) ss1 ln1 tt1 pp1
        (by rw [← hL0, List.drop_left]; simp) htl1 htm1 htu1 hpm1 hpu1 hss1 hln1 hnx1]
      simp [parse_table_status_go]
  · simp only [List.length_cons] at hlen
    omega

/-- Witness for C1's amended statement on the two-target list `tsW`. -/
theorem table_load_roundtrip_le_two_witness :
    (tsW.length ≤ 2 ∧ ∀ t ∈ tsW, wfTarget t = true) ∧
    ∃ buf, table_load_targets tsW = some buf ∧
      parse_table_status tsW.length buf = .ok tsW :=
  ⟨⟨by decide, by decide⟩, table_load_roundtrip_le_two tsW (by decide) (by decide)⟩

/-! C5: bounded busy retry -/

theorem do_ioctl_busy_hit (K idx flags fuel : Nat) (resp : KernelResp)
    (hfuel : 1 ≤ fuel) (hidx : idx < K) :
    (do_ioctl (busyKernel K resp) DM_DEV_REMOVE_CMD flags 0 fuel idx).res = .retryBusy ∧
    (do_ioctl (busyKernel K resp) DM_DEV_REMOVE_CMD flags 0 fuel idx).next = idx + 1 := by
  obtain ⟨f, rfl⟩ : ∃ f, fuel = f + 1 := ⟨fuel - 1, by omega⟩
  constructor <;>
    simp [do_ioctl, growLoop, busyKernel, hidx, EBUSY, DM_DEV_REMOVE_CMD]

theorem do_ioctl_busy_done (K idx flags fuel : Nat) (resp : KernelResp)
    (hfuel : 1 ≤ fuel) (hidx : K ≤ idx)
    (hfl : resp.flags &&& DM_BUFFER_FULL_FLAG = 0)
    (hds : resp.data_start = hdrSize)
    (hsz : max hdrSize resp.data_size ≤ MIN_BUF_SIZE) :
    (do_ioctl (busyKernel K resp) DM_DEV_REMOVE_CMD flags 0 fuel idx).res =
      .ok ((resp.content.drop hdrSize).take (max hdrSize resp.data_size - hdrSize)) := by
  obtain ⟨f, rfl⟩ : ∃ f, fuel = f + 1 := ⟨fuel - 1, by omega⟩
  have hnotlt : ¬ (idx < K) := by omega
  have hsize : (max MIN_BUF_SIZE (hdrSize + 0)) % 4294967296 = MIN_BUF_SIZE := by
    norm_num [MIN_BUF_SIZE, hdrSize]
  simp only [do_ioctl, hsize, growLoop, busyKernel, if_neg hnotlt]
  rw [if_pos hfl, if_neg ?hpanic]
  case hpanic =>
    rw [hds]
    have : hdrSize ≤ MIN_BUF_SIZE := by norm_num [hdrSize, MIN_BUF_SIZE]
    simp
    omega
  rw [hds, if_neg (by omega : ¬ MIN_BUF_SIZE < max hdrSize resp.data_size)]

theorem retryLoop_busy_char (K flags fuel : Nat) (resp : KernelResp)
    (hfuel : 1 ≤ fuel)
    (hfl : resp.flags &&& DM_BUFFER_FULL_FLAG = 0)
    (hds : resp.data_start = hdrSize)
    (hsz : max hdrSize resp.data_size ≤ MIN_BUF_SIZE) :
    ∀ delays idx,
      retryLoop (busyKernel K resp) DM_DEV_REMOVE_CMD flags 0 fuel delays idx =
        if K ≤ idx then
          (.ok ((resp.content.drop hdrSize).take (max hdrSize resp.data_size - hdrSize)), 1)
        else if K - idx ≤ delays then
          (.ok ((resp.content.drop hdrSize).take (max hdrSize resp.data_size - hdrSize)),
            K - idx + 1)
        else (.errIoctl EBUSY, delays + 1) := by
  intro delays
  induction delays with
  | zero =>
    intro idx
    by_cases h : K ≤ idx
    · rw [if_pos h]
      simp only [retryLoop, do_ioctl_busy_done K idx flags fuel resp hfuel h hfl hds hsz]
    · rw [if_neg h, if_neg (by omega)]
      simp only [retryLoop,
        (do_ioctl_busy_hit K idx flags fuel resp hfuel (by omega)).1]
  | succ d ih =>
    intro idx
    by_cases h : K ≤ idx
    · rw [if_pos h]
      simp only [retryLoop, do_ioctl_busy_done K idx flags fuel resp hfuel h hfl hds hsz]
    · rw [if_neg h]
      simp only [retryLoop,
        (do_ioctl_busy_hit K idx flags fuel resp hfuel (by omega)).1,
        (do_ioctl_busy_hit K idx flags fuel resp hfuel (by omega)).2]
      rw [ih (idx + 1)]
      by_cases h1 : K ≤ idx + 1
      · rw [if_pos h1, if_pos (by omega)]
        simp only [Prod.mk.injEq]
        exact ⟨trivial, by omega⟩
      · rw [if_neg h1]
        by_cases h2 : K - (idx + 1) ≤ d
        · rw [if_pos h2, if_pos (by omega)]
          simp only [Prod.mk.injEq]
          exact ⟨trivial, by omega⟩
        · rw [if_neg h2, if_neg (by omega)]

/-- Claim C5: with a kernel that reports EBUSY on a device-removal command for
exactly `K` syscalls and succeeds afterwards, the call succeeds after `K + 1`
attempts when `K` is below the retry bound (`IOCTL_RETRIES + 1 = 25` total
attempts: the initial call plus one per configured delay), and fails with the
busy `Ioctl` error after exactly `retryBound` attempts when `K` is at or above
the bound; any non-busy errno, or EBUSY on a command other than
device-removal, fails after exactly one attempt. -/
theorem ioctl_busy_retry_bounded (K flags fuel : Nat) (resp : KernelResp)
    (hfuel : 1 ≤ fuel)
    (hfl : resp.flags &&& DM_BUFFER_FULL_FLAG = 0)
    (hds : resp.data_start = hdrSize)
    (hsz : max hdrSize resp.data_size ≤ MIN_BUF_SIZE) :
    (K < retryBound →
      ioctl_model (busyKernel K resp) DM_DEV_REMOVE_CMD flags 0 fuel =
        (.ok ((resp.content.drop hdrSize).take (max hdrSize resp.data_size - hdrSize)),
          K + 1)) ∧
    (retryBound ≤ K →
      ioctl_model (busyKernel K resp) DM_DEV_REMOVE_CMD flags 0 fuel =
        (.errIoctl EBUSY, retryBound)) ∧
    (∀ e cmd, (e ≠ EBUSY ∨ cmd ≠ DM_DEV_REMOVE_CMD) →
      ioctl_model (fun _ _ => .errno e) cmd flags 0 fuel = (.errIoctl e, 1)) := by
  have hrb : retryBound = 25 := by norm_num [retryBound, IOCTL_RETRIES]
  have hchar := retryLoop_busy_char K flags fuel resp hfuel hfl hds hsz
  refine ⟨?_, ?_, ?_⟩
  · intro hK
    rw [ioctl_model, hchar IOCTL_RETRIES 0]
    by_cases h0 : K ≤ 0
    · rw [if_pos h0]
      have : K = 0 := by omega
      simp [this]
    · rw [if_neg h0, if_pos (by rw [hrb] at hK; norm_num [IOCTL_RETRIES]; omega)]
      simp only [Prod.mk.injEq]
      exact ⟨trivial, by omega⟩
  · intro hK
    rw [ioctl_model, hchar IOCTL_RETRIES 0]
    rw [hrb] at hK
    rw [if_neg (by omega), if_neg (by norm_num [IOCTL_RETRIES]; omega)]
    rw [hrb]
    norm_num [IOCTL_RETRIES]
  · intro e cmd he
    have hres : ∀ idx, (do_ioctl (fun _ _ => KernelReply.errno e) cmd flags 0 fuel idx).res =
        .errIoctl e := by
      intro idx
      obtain ⟨f, rfl⟩ : ∃ f, fuel = f + 1 := ⟨fuel - 1, by omega⟩
      have hguard : ¬ (e = EBUSY ∧ cmd = DM_DEV_REMOVE_CMD) := by tauto
      simp [do_ioctl, growLoop, hguard]
    rw [ioctl_model]
    have h24 : IOCTL_RETRIES = 23 + 1 := by norm_num [IOCTL_RETRIES]
    rw [h24]
    simp only [retryLoop, hres]

/-- Witness for C5 at `K = 2` with a trivial success response. -/
theorem ioctl_busy_retry_bounded_witness :
    (1 ≤ 1 ∧ (0 : Nat) &&& DM_BUFFER_FULL_FLAG = 0 ∧
      (KernelResp.mk 0 312 312 []).data_start = hdrSize ∧
      max hdrSize (KernelResp.mk 0 312 312 []).data_size ≤ MIN_BUF_SIZE) ∧
    ((2 < retryBound →
      ioctl_model (busyKernel 2 (KernelResp.mk 0 312 312 [])) DM_DEV_REMOVE_CMD 0 0 1 =
        (.ok (((KernelResp.mk 0 312 312 []).content.drop hdrSize).take
          (max hdrSize (KernelResp.mk 0 312 312 []).data_size - hdrSize)), 2 + 1)) ∧
    (retryBound ≤ 2 →
      ioctl_model (busyKernel 2 (KernelResp.mk 0 312 312 [])) DM_DEV_REMOVE_CMD 0 0 1 =
        (.errIoctl EBUSY, retryBound)) ∧
    (∀ e cmd, (e ≠ EBUSY ∨ cmd ≠ DM_DEV_REMOVE_CMD) →
      ioctl_model (fun _ _ => .errno e) cmd 0 0 1 = (.errIoctl e, 1))) :=
  ⟨⟨by decide, by decide, by decide, by decide⟩,
   ioctl_busy_retry_bounded 2 0 1 (KernelResp.mk 0 312 312 []) (by decide) (by decide)
     (by decide) (by decide)⟩

/-! C4: buffer-growth convergence -/

theorem cldiv_le_iff (T s m : Nat) (hs : 0 < s) : cldiv T s ≤ m ↔ T ≤ s * m := by
  unfold cldiv
  rw [Nat.div_le_iff_le_mul_add_pred hs]
  omega

theorem clog_cldiv_le_iff (T s j : Nat) (hs : 0 < s) :
    Nat.clog 2 (cldiv T s) ≤ j ↔ T ≤ s * 2 ^ j := by
  rw [← Nat.le_pow_iff_clog_le (by norm_num : (1 : Nat) < 2)]
  exact cldiv_le_iff T s (2 ^ j) hs

theorem clog_cldiv_zero_iff (T s : Nat) (hs : 0 < s) :
    Nat.clog 2 (cldiv T s) = 0 ↔ T ≤ s := by
  rw [← Nat.le_zero, clog_cldiv_le_iff T s 0 hs]
  simp

theorem clog_cldiv_double (T s n : Nat) (hs : 0 < s)
    (h : Nat.clog 2 (cldiv T s) = n + 1) : Nat.clog 2 (cldiv T (2 * s)) = n := by
  have key : ∀ j, Nat.clog 2 (cldiv T s) ≤ j + 1 ↔ Nat.clog 2 (cldiv T (2 * s)) ≤ j := by
    intro j
    rw [clog_cldiv_le_iff T s (j + 1) hs, clog_cldiv_le_iff T (2 * s) j (by omega)]
    have hpw : s * 2 ^ (j + 1) = 2 * s * 2 ^ j := by
      rw [pow_succ]
      ring
    rw [hpw]
  have h1 : Nat.clog 2 (cldiv T (2 * s)) ≤ n := (key n).mp (by omega)
  have h2 : n + 1 ≤ Nat.clog 2 (cldiv T (2 * s)) + 1 := by
    rw [← h]
    exact (key (Nat.clog 2 (cldiv T (2 * s)))).mpr (le_refl _)
  omega

theorem growLoop_threshold_ok (T : Nat) (resp : KernelResp) (cmd : Nat)
    (hT : T ≤ u32Max)
    (hfl : resp.flags &&& DM_BUFFER_FULL_FLAG = 0)
    (hds : resp.data_start = hdrSize) :
    ∀ n s idx fuel, 0 < s → s ≤ u32Max → hdrSize ≤ s → max hdrSize resp.data_size ≤ s →
      Nat.clog 2 (cldiv T s) = n → n + 1 ≤ fuel →
      growLoop (thresholdKernel T resp) cmd fuel s idx =
        ⟨.ok ((resp.content.drop hdrSize).take (max hdrSize resp.data_size - hdrSize)),
         [.ended (resp.flags &&& DM_UEVENT_GENERATED_FLAG ≠ 0)], idx + (n + 1)⟩ := by
  intro n
  induction n with
  | zero =>
    intro s idx fuel hs hsM h312 hoff hclog hfuel
    have hTs : T ≤ s := (clog_cldiv_zero_iff T s hs).mp hclog
    obtain ⟨f, rfl⟩ : ∃ f, fuel = f + 1 := ⟨fuel - 1, by omega⟩
    simp only [growLoop, thresholdKernel, if_neg (by omega : ¬ s < T)]
    rw [if_pos hfl, if_neg ?hpanic]
    case hpanic =>
      rw [hds]
      simp
      omega
    rw [hds, if_neg (by omega : ¬ s < max hdrSize resp.data_size)]
  | succ k ih =>
    intro s idx fuel hs hsM h312 hoff hclog hfuel
    have hsT : s < T := by
      by_contra hc
      push_neg at hc
      have := (clog_cldiv_zero_iff T s hs).mpr hc
      omega
    obtain ⟨f, rfl⟩ : ∃ f, fuel = f + 1 := ⟨fuel - 1, by omega⟩
    simp only [growLoop, thresholdKernel, if_pos hsT]
    rw [if_neg (by decide :
        ¬ ((KernelResp.mk DM_BUFFER_FULL_FLAG 0 0 []).flags &&& DM_BUFFER_FULL_FLAG = 0)),
      if_neg (show ¬ s = u32Max by omega)]
    have hclog' : Nat.clog 2 (cldiv T (min (2 * s) u32Max)) = k := by
      by_cases h2s : 2 * s ≤ u32Max
      · rw [Nat.min_eq_left h2s]
        exact clog_cldiv_double T s k hs hclog
      · rw [Nat.min_eq_right (by omega)]
        have hk0 : k = 0 := by
          have hT2s : T ≤ s * 2 ^ 1 := by
            have : (2 : Nat) ^ 1 = 2 := by norm_num
            rw [this]
            omega
          have := (clog_cldiv_le_iff T s 1 hs).mpr hT2s
          omega
        rw [hk0]
        exact (clog_cldiv_zero_iff T u32Max (by norm_num [u32Max])).mpr hT
    have hstep := ih (min (2 * s) u32Max) (idx + 1) f (by omega) (by omega) (by omega)
      (by omega) hclog' (by omega)
    rw [hstep]
    have harith : idx + 1 + (k + 1) = idx + (k + 1 + 1) := by omega
    rw [harith]

theorem growLoop_too_large (T : Nat) (resp : KernelResp) (cmd : Nat)
    (hT : u32Max < T) :
    ∀ n s idx fuel, 0 < s → s ≤ u32Max → Nat.clog 2 (cldiv u32Max s) = n → n + 1 ≤ fuel →
      growLoop (thresholdKernel T resp) cmd fuel s idx =
        ⟨.errTooLarge, [], idx + (n + 1)⟩ := by
  intro n
  induction n with
  | zero =>
    intro s idx fuel hs hsM hclog hfuel
    have hMs : u32Max ≤ s := (clog_cldiv_zero_iff u32Max s hs).mp hclog
    have hseq : s = u32Max := by omega
    obtain ⟨f, rfl⟩ : ∃ f, fuel = f + 1 := ⟨fuel - 1, by omega⟩
    simp only [growLoop, thresholdKernel, if_pos (by omega : s < T)]
    rw [if_neg (by decide :
        ¬ ((KernelResp.mk DM_BUFFER_FULL_FLAG 0 0 []).flags &&& DM_BUFFER_FULL_FLAG = 0)),
      if_pos hseq]
  | succ k ih =>
    intro s idx fuel hs hsM hclog hfuel
    have hsM' : s < u32Max := by
      by_contra hc
      push_neg at hc
      have := (clog_cldiv_zero_iff u32Max s hs).mpr hc
      omega
    obtain ⟨f, rfl⟩ : ∃ f, fuel = f + 1 := ⟨fuel - 1, by omega⟩
    simp only [growLoop, thresholdKernel, if_pos (by omega : s < T)]
    rw [if_neg (by decide :
        ¬ ((KernelResp.mk DM_BUFFER_FULL_FLAG 0 0 []).flags &&& DM_BUFFER_FULL_FLAG = 0)),
      if_neg (show ¬ s = u32Max by omega)]
    have hclog' : Nat.clog 2 (cldiv u32Max (min (2 * s) u32Max)) = k := by
      by_cases h2s : 2 * s ≤ u32Max
      · rw [Nat.min_eq_left h2s]
        exact clog_cldiv_double u32Max s k hs hclog
      · rw [Nat.min_eq_right (by omega)]
        have hk0 : k = 0 := by
          have hT2s : u32Max ≤ s * 2 ^ 1 := by
            have : (2 : Nat) ^ 1 = 2 := by norm_num
            rw [this]
            omega
          have := (clog_cldiv_le_iff u32Max s 1 hs).mpr hT2s
          omega
        rw [hk0]
        exact (clog_cldiv_zero_iff u32Max u32Max (by norm_num [u32Max])).mpr (le_refl _)
    have hstep := ih (min (2 * s) u32Max) (idx + 1) f (by omega) (by omega) hclog' (by omega)
    rw [hstep]
    have harith : idx + 1 + (k + 1) = idx + (k + 1 + 1) := by omega
    rw [harith]

/-- Claim C4: against a kernel that reports buffer-full below threshold `T` and
succeeds at or above it, `do_ioctl` starts from the floor
`max(MIN_BUF_SIZE, header_size + input_len)`, doubles on each buffer-full
response, and, when `T` is representable, succeeds after exactly
`ceil(log2(T / floor))` growth iterations (the syscall counter advances by
that count plus one) returning exactly the payload bytes
`[data_start, max(data_start, data_size))` of the successful response; when
`T` exceeds the u32-representable maximum, the size saturates at `u32::MAX`
and the call fails with the `IoctlResultTooLarge` error instead of overflowing
the size field. -/
theorem do_ioctl_buffer_growth (T inLen cmd flags fuel idx : Nat) (resp : KernelResp)
    (hin : hdrSize + inLen ≤ u32Max)
    (hfl : resp.flags &&& DM_BUFFER_FULL_FLAG = 0)
    (hds : resp.data_start = hdrSize)
    (hsz : max hdrSize resp.data_size ≤ max MIN_BUF_SIZE (hdrSize + inLen))
    (hfuel : 34 ≤ fuel) :
    (T ≤ u32Max →
      (do_ioctl (thresholdKernel T resp) cmd flags inLen fuel idx).res =
        .ok ((resp.content.drop hdrSize).take (max hdrSize resp.data_size - hdrSize)) ∧
      (do_ioctl (thresholdKernel T resp) cmd flags inLen fuel idx).next =
        idx + (Nat.clog 2 (cldiv T (max MIN_BUF_SIZE (hdrSize + inLen))) + 1)) ∧
    (u32Max < T →
      (do_ioctl (thresholdKernel T resp) cmd flags inLen fuel idx).res = .errTooLarge) := by
  have hHS : hdrSize = 312 := rfl
  have hMBS : MIN_BUF_SIZE = 16384 := rfl
  have hM : u32Max = 4294967295 := rfl
  have hF0 : 0 < max MIN_BUF_SIZE (hdrSize + inLen) := by omega
  have hFM : max MIN_BUF_SIZE (hdrSize + inLen) ≤ u32Max := by omega
  have hF312 : hdrSize ≤ max MIN_BUF_SIZE (hdrSize + inLen) := by omega
  have hFmod : (max MIN_BUF_SIZE (hdrSize + inLen)) % 4294967296 =
      max MIN_BUF_SIZE (hdrSize + inLen) := Nat.mod_eq_of_lt (by omega)
  have hpow : (1 : Nat) * 2 ^ 32 ≤ max MIN_BUF_SIZE (hdrSize + inLen) * 2 ^ 32 :=
    Nat.mul_le_mul_right (2 ^ 32) (by omega)
  have hclogbound : ∀ B, B ≤ u32Max →
      Nat.clog 2 (cldiv B (max MIN_BUF_SIZE (hdrSize + inLen))) ≤ 32 := by
    intro B hB
    refine (clog_cldiv_le_iff B _ 32 hF0).mpr ?_
    have h32 : (2 : Nat) ^ 32 = 4294967296 := by norm_num
    rw [h32] at hpow ⊢
    omega
  constructor
  · intro hT
    have hrun := growLoop_threshold_ok T resp cmd hT hfl hds
      (Nat.clog 2 (cldiv T (max MIN_BUF_SIZE (hdrSize + inLen))))
      (max MIN_BUF_SIZE (hdrSize + inLen)) idx fuel hF0 hFM hF312 hsz rfl
      (by have := hclogbound T hT; omega)
    simp only [do_ioctl, hFmod, hrun]
    exact ⟨trivial, trivial⟩
  · intro hT
    have hrun := growLoop_too_large T resp cmd hT
      (Nat.clog 2 (cldiv u32Max (max MIN_BUF_SIZE (hdrSize + inLen))))
      (max MIN_BUF_SIZE (hdrSize + inLen)) idx fuel hF0 hFM rfl
      (by have := hclogbound u32Max (le_refl _); omega)
    simp only [do_ioctl, hFmod, hrun]

/-- Witness for C4 at threshold 40000 (two doublings from the 16384 floor)
and at an unrepresentable threshold `u32Max + 1`. -/
theorem do_ioctl_buffer_growth_witness :
    (hdrSize + 0 ≤ u32Max ∧
      (KernelResp.mk 0 312 320 (List.replicate 320 7)).flags &&& DM_BUFFER_FULL_FLAG = 0 ∧
      (KernelResp.mk 0 312 320 (List.replicate 320 7)).data_start = hdrSize ∧
      max hdrSize (KernelResp.mk 0 312 320 (List.replicate 320 7)).data_size ≤
        max MIN_BUF_SIZE (hdrSize + 0) ∧ 34 ≤ 64) ∧
    ((40000 ≤ u32Max →
      (do_ioctl (thresholdKernel 40000 (KernelResp.mk 0 312 320 (List.replicate 320 7)))
          9 0 0 64 0).res =
        .ok (((KernelResp.mk 0 312 320 (List.replicate 320 7)).content.drop hdrSize).take
          (max hdrSize (KernelResp.mk 0 312 320 (List.replicate 320 7)).data_size - hdrSize)) ∧
      (do_ioctl (thresholdKernel 40000 (KernelResp.mk 0 312 320 (List.replicate 320 7)))
          9 0 0 64 0).next =
        0 + (Nat.clog 2 (cldiv 40000 (max MIN_BUF_SIZE (hdrSize + 0))) + 1)) ∧
    (u32Max < 40000 →
      (do_ioctl (thresholdKernel 40000 (KernelResp.mk 0 312 320 (List.replicate 320 7)))
          9 0 0 64 0).res = .errTooLarge)) :=
  ⟨⟨by decide, by decide, by decide, by decide, by decide⟩,
   do_ioctl_buffer_growth 40000 0 9 0 64 0 (KernelResp.mk 0 312 320 (List.replicate 320 7))
     (by decide) (by decide) (by decide) (by decide) (by decide)⟩
